import Mathlib

/-!
Verification of the repository-side TUF metadata script (`manual.py`).

The script builds a chain of TUF metadata files (root, a delegated targets
role, targets, snapshot, timestamp) by constructing Python dictionaries,
signing them, mutating them, and serialising them to JSON.  We model the
dictionaries by a JSON-like value type `J`, the script's own
`sort_nested_dict` canonicaliser by `sortNestedDict`, and the canonical
serialisation / signature capability (which the script obtains from external
libraries and which the specification describes in its "Signer/Verifier"
and "Canonical serialization" interface sections) by an idealised
signature record that stores the canonical form of the bytes signed.
-/

/-- JSON-like values: strings, integers, booleans, arrays and objects.
Objects are association lists of string keys and values, mirroring Python
dictionaries (insertion-ordered, duplicate-free keys). -/
inductive J where
  | s (x : String)
  | n (x : Int)
  | b (x : Bool)
  | arr (xs : List J)
  | obj (entries : List (String × J))

/-- Association-list lookup used to read a field of a JSON object. -/
def lookupJ (k : String) : List (String × J) → Option J
  | [] => none
  | (k', v) :: t => if k' = k then some v else lookupJ k t

/-- Read field `k` of a JSON object (`none` on non-objects). -/
def jGet (j : J) (k : String) : Option J :=
  match j with
  | .obj l => lookupJ k l
  | _ => none

/-- Order on object entries used by `sorted(d.items())`: compare keys.
Keys of a Python dictionary are pairwise distinct, so the comparison of
`sorted` never reaches the second tuple component. -/
def keyLE (p q : String × J) : Prop := p.1 ≤ q.1

instance : DecidableRel keyLE := fun p q => inferInstanceAs (Decidable (p.1 ≤ q.1))

instance : IsTotal (String × J) keyLE := ⟨fun p q => le_total p.1 q.1⟩

instance : IsTrans (String × J) keyLE := ⟨fun _ _ _ h1 h2 => le_trans h1 h2⟩

/-- Entry lists sorted by key, as `sorted(d.items())` produces them. -/
def sortPairs (l : List (String × J)) : List (String × J) :=
  List.insertionSort keyLE l

mutual
/-- Model of `sort_nested_dict` (manual.py lines 42-47): on a dictionary it
sorts the items by key and recurses into the values; every other value
(including lists, whose elements are left untouched) is returned as is. -/
def sortNestedDict : J → J
  | .obj l => .obj (sortPairs (sortEntries l))
  | x => x
/-- Value-wise recursion of `sort_nested_dict` over the items of a dict. -/
def sortEntries : List (String × J) → List (String × J)
  | [] => []
  | (k, v) :: t => (k, sortNestedDict v) :: sortEntries t
end

mutual
/-- Modelled from the spec: the "canonical serialization" interface demands
a deterministic byte-exact encoding that is injective over logical content.
`deepSort` computes the canonical form of a value: object keys are sorted
at every level, including objects nested inside arrays, and array order is
preserved.  Two values have the same canonical bytes iff their `deepSort`
forms are equal. -/
def deepSort : J → J
  | .obj l => .obj (sortPairs (deepEntries l))
  | .arr xs => .arr (deepList xs)
  | x => x
/-- Canonical form of the elements of an array. -/
def deepList : List J → List J
  | [] => []
  | x :: t => deepSort x :: deepList t
/-- Canonical form of the values of an object's entries. -/
def deepEntries : List (String × J) → List (String × J)
  | [] => []
  | (k, v) :: t => (k, deepSort v) :: deepEntries t
end

/-- Induction over JSON values together with the lists they nest. -/
theorem J.customInduction (P : J → Prop) (Q : List J → Prop) (R : List (String × J) → Prop)
    (hs : ∀ x, P (.s x)) (hn : ∀ x, P (.n x)) (hb : ∀ x, P (.b x))
    (harr : ∀ xs, Q xs → P (.arr xs))
    (hobj : ∀ l, R l → P (.obj l))
    (hqnil : Q []) (hqcons : ∀ x t, P x → Q t → Q (x :: t))
    (hrnil : R []) (hrcons : ∀ k v t, P v → R t → R ((k, v) :: t)) :
    ∀ x, P x := by
  intro x
  refine @J.rec P Q R (fun p => P p.2) hs hn hb harr hobj hqnil
    (fun hd tl h1 h2 => hqcons hd tl h1 h2) hrnil
    (fun hd tl h1 h2 => hrcons hd.1 hd.2 tl h1 h2)
    (fun fst snd h => h) x

/-- Unfold `sortEntries` to a `List.map`. -/
theorem sortEntries_eq_map (l : List (String × J)) :
    sortEntries l = l.map (fun p => (p.1, sortNestedDict p.2)) := by
  induction l with
  | nil => simp [sortEntries]
  | cons p t ih => cases p; simp [sortEntries, ih]

/-- Unfold `deepEntries` to a `List.map`. -/
theorem deepEntries_eq_map (l : List (String × J)) :
    deepEntries l = l.map (fun p => (p.1, deepSort p.2)) := by
  induction l with
  | nil => simp [deepEntries]
  | cons p t ih => cases p; simp [deepEntries, ih]

/-- Unfold `deepList` to a `List.map`. -/
theorem deepList_eq_map (xs : List J) : deepList xs = xs.map deepSort := by
  induction xs with
  | nil => simp [deepList]
  | cons x t ih => simp [deepList, ih]

/-- Keys are unchanged by `sortEntries`. -/
theorem map_fst_sortEntries (l : List (String × J)) :
    (sortEntries l).map Prod.fst = l.map Prod.fst := by
  rw [sortEntries_eq_map, List.map_map]
  rfl

/-- Keys are unchanged by `deepEntries`. -/
theorem map_fst_deepEntries (l : List (String × J)) :
    (deepEntries l).map Prod.fst = l.map Prod.fst := by
  rw [deepEntries_eq_map, List.map_map]
  rfl

/-- Two key-sorted entry lists with the same entries and duplicate-free keys
are equal: key sorting is a normal form for Python dictionaries. -/
theorem sortedKeyedEq : ∀ {l1 l2 : List (String × J)}, l1.Perm l2 →
    l1.Sorted keyLE → l2.Sorted keyLE → (l1.map Prod.fst).Nodup → l1 = l2 := by
  intro l1
  induction l1 with
  | nil => intro l2 h _ _ _; exact (h.nil_eq).symm ▸ rfl
  | cons p t1 ih =>
    intro l2 h hs1 hs2 hnd
    cases l2 with
    | nil => exact absurd h.symm.nil_eq (by simp)
    | cons q t2 =>
      have hpq : p = q := by
        have hp2 : p ∈ q :: t2 := h.subset (List.mem_cons_self p t1)
        have hq1 : q ∈ p :: t1 := h.symm.subset (List.mem_cons_self q t2)
        rcases List.mem_cons.mp hp2 with hpq | hp2'
        · exact hpq
        · rcases List.mem_cons.mp hq1 with hqp | hq1'
          · exact hqp.symm
          · have h1 : keyLE p q := List.rel_of_sorted_cons hs1 q hq1'
            have h2 : keyLE q p := List.rel_of_sorted_cons hs2 p hp2'
            have hkey : p.1 = q.1 := le_antisymm h1 h2
            have hnd2 : ((q :: t2).map Prod.fst).Nodup := (h.map Prod.fst).nodup hnd
            exfalso
            have : p.1 ∈ t2.map Prod.fst := List.mem_map_of_mem Prod.fst hp2'
            rw [hkey] at this
            exact (List.nodup_cons.mp hnd2).1 this
      subst hpq
      have ht : t1.Perm t2 := h.cons_inv
      have := ih ht hs1.of_cons hs2.of_cons (List.nodup_cons.mp hnd).2
      rw [this]

/-- Sorting by key does not depend on the input order of the entries, as
long as the keys are duplicate-free. -/
theorem sortPairsCongrPerm {l1 l2 : List (String × J)} (h : l1.Perm l2)
    (hnd : (l1.map Prod.fst).Nodup) : sortPairs l1 = sortPairs l2 := by
  apply sortedKeyedEq
  · exact (List.perm_insertionSort keyLE l1).trans (h.trans (List.perm_insertionSort keyLE l2).symm)
  · exact List.sorted_insertionSort keyLE l1
  · exact List.sorted_insertionSort keyLE l2
  · exact (((List.perm_insertionSort keyLE l1).map Prod.fst).nodup_iff).mpr hnd

mutual
/-- Values containing no object anywhere (atoms, and arrays thereof). -/
def objFree : J → Bool
  | .obj _ => false
  | .arr xs => objFreeList xs
  | _ => true
/-- All elements of the list are object-free. -/
def objFreeList : List J → Bool
  | [] => true
  | x :: t => objFree x && objFreeList t
end

mutual
/-- Nested dictionaries in the narrow sense: every array occurring anywhere
in the value contains only object-free elements, so all dictionary
structure lives directly under dictionary values. -/
def arrOk : J → Bool
  | .obj l => arrOkEntries l
  | .arr xs => objFreeList xs
  | _ => true
/-- All values of the entry list satisfy `arrOk`. -/
def arrOkEntries : List (String × J) → Bool
  | [] => true
  | (_, v) :: t => arrOk v && arrOkEntries t
end

mutual
/-- Well-formedness inherited from Python dictionaries: the keys of every
object in the value, at any depth, are pairwise distinct. -/
def nodupKeysJ : J → Bool
  | .obj l => decide ((l.map Prod.fst).Nodup) && nodupKeysEntries l
  | .arr xs => nodupKeysList xs
  | _ => true
/-- All elements of the list have duplicate-free keys. -/
def nodupKeysList : List J → Bool
  | [] => true
  | x :: t => nodupKeysJ x && nodupKeysList t
/-- All values of the entry list have duplicate-free keys. -/
def nodupKeysEntries : List (String × J) → Bool
  | [] => true
  | (_, v) :: t => nodupKeysJ v && nodupKeysEntries t
end

mutual
/-- Keys ascending at every dictionary level that is not nested inside an
array (the levels `sort_nested_dict` actually reaches). -/
def keysSortedJ : J → Bool
  | .obj l => decide (List.Sorted (fun a b : String => a ≤ b) (l.map Prod.fst)) &&
      keysSortedEntries l
  | .arr _ => true
  | _ => true
/-- All values of the entry list satisfy `keysSortedJ`. -/
def keysSortedEntries : List (String × J) → Bool
  | [] => true
  | (_, v) :: t => keysSortedJ v && keysSortedEntries t
end

/-- Membership form of `objFreeList`. -/
theorem objFreeList_mem {xs : List J} (h : objFreeList xs = true) :
    ∀ x ∈ xs, objFree x = true := by
  induction xs with
  | nil => intro x hx; cases hx
  | cons y t ih =>
    simp only [objFreeList, Bool.and_eq_true] at h
    intro x hx
    rcases List.mem_cons.mp hx with rfl | hx'
    · exact h.1
    · exact ih h.2 x hx'

/-- Membership form of `arrOkEntries`. -/
theorem arrOkEntries_mem {l : List (String × J)} (h : arrOkEntries l = true) :
    ∀ p ∈ l, arrOk p.2 = true := by
  induction l with
  | nil => intro p hp; cases hp
  | cons q t ih =>
    cases q
    simp only [arrOkEntries, Bool.and_eq_true] at h
    intro p hp
    rcases List.mem_cons.mp hp with rfl | hp'
    · exact h.1
    · exact ih h.2 p hp'

/-- Membership form of `nodupKeysEntries`. -/
theorem nodupKeysEntries_mem {l : List (String × J)} (h : nodupKeysEntries l = true) :
    ∀ p ∈ l, nodupKeysJ p.2 = true := by
  induction l with
  | nil => intro p hp; cases hp
  | cons q t ih =>
    cases q
    simp only [nodupKeysEntries, Bool.and_eq_true] at h
    intro p hp
    rcases List.mem_cons.mp hp with rfl | hp'
    · exact h.1
    · exact ih h.2 p hp'

/-- Pointwise construction of `keysSortedEntries`. -/
theorem keysSortedEntries_of {l : List (String × J)}
    (h : ∀ p ∈ l, keysSortedJ p.2 = true) : keysSortedEntries l = true := by
  induction l with
  | nil => rfl
  | cons q t ih =>
    cases q
    simp only [keysSortedEntries, Bool.and_eq_true]
    exact ⟨h _ (List.mem_cons_self _ _), ih fun p hp => h p (List.mem_cons_of_mem _ hp)⟩

/-- Canonicalisation fixes object-free values. -/
theorem objFree_deepSort : ∀ x, objFree x = true → deepSort x = x := by
  refine J.customInduction (fun x => objFree x = true → deepSort x = x)
    (fun xs => objFreeList xs = true → deepList xs = xs) (fun _ => True)
    ?_ ?_ ?_ ?_ ?_ ?_ ?_ ?_ ?_
  · intro x _; simp [deepSort]
  · intro x _; simp [deepSort]
  · intro x _; simp [deepSort]
  · intro xs ih h
    simp only [objFree] at h
    simp [deepSort, ih h]
  · intro l _ h
    simp [objFree] at h
  · intro _; rfl
  · intro x t hx ht h
    simp only [objFreeList, Bool.and_eq_true] at h
    simp [deepList, hx h.1, ht h.2]
  · exact trivial
  · intros; exact trivial

/-- On values whose arrays hide no dictionaries, `sort_nested_dict`
computes exactly the canonical form. -/
theorem arrOk_sort_eq_deep : ∀ x, arrOk x = true → sortNestedDict x = deepSort x := by
  refine J.customInduction (fun x => arrOk x = true → sortNestedDict x = deepSort x)
    (fun _ => True)
    (fun l => arrOkEntries l = true → sortEntries l = deepEntries l)
    ?_ ?_ ?_ ?_ ?_ ?_ ?_ ?_ ?_
  · intro x _; simp [sortNestedDict, deepSort]
  · intro x _; simp [sortNestedDict, deepSort]
  · intro x _; simp [sortNestedDict, deepSort]
  · intro xs _ h
    simp only [arrOk] at h
    have hfix : deepList xs = xs := by
      rw [deepList_eq_map]
      rw [List.map_congr_left (fun a ha => objFree_deepSort a (objFreeList_mem h a ha))]
      simp
    simp [sortNestedDict, deepSort, hfix]
  · intro l ih h
    simp only [arrOk] at h
    simp [sortNestedDict, deepSort, ih h]
  · exact trivial
  · intros; exact trivial
  · intro _; rfl
  · intro k v t hv ht h
    simp only [arrOkEntries, Bool.and_eq_true] at h
    simp [sortEntries, deepEntries, hv h.1, ht h.2]

/-- Applying `sort_nested_dict` twice is the same as applying it once. -/
theorem sortNestedDict_idem : ∀ x, sortNestedDict (sortNestedDict x) = sortNestedDict x := by
  refine J.customInduction (fun x => sortNestedDict (sortNestedDict x) = sortNestedDict x)
    (fun _ => True)
    (fun l => ∀ p ∈ l, sortNestedDict (sortNestedDict p.2) = sortNestedDict p.2)
    ?_ ?_ ?_ ?_ ?_ ?_ ?_ ?_ ?_
  · intro x; simp [sortNestedDict]
  · intro x; simp [sortNestedDict]
  · intro x; simp [sortNestedDict]
  · intro xs _; simp [sortNestedDict]
  · intro l ih
    have hfix : sortEntries (sortPairs (sortEntries l)) = sortPairs (sortEntries l) := by
      rw [sortEntries_eq_map (sortPairs (sortEntries l))]
      have : ∀ p ∈ sortPairs (sortEntries l), (p.1, sortNestedDict p.2) = p := by
        intro p hp
        have hp2 : p ∈ sortEntries l := (List.mem_insertionSort keyLE).mp hp
        rw [sortEntries_eq_map] at hp2
        rcases List.mem_map.mp hp2 with ⟨q, hq, rfl⟩
        have := ih q hq
        simp [this]
      rw [List.map_congr_left this]
      simp
    simp only [sortNestedDict]
    rw [hfix]
    have hsorted : List.Sorted keyLE (sortPairs (sortEntries l)) :=
      List.sorted_insertionSort keyLE (sortEntries l)
    have : sortPairs (sortPairs (sortEntries l)) = sortPairs (sortEntries l) :=
      hsorted.insertionSort_eq
    rw [this]
  · exact trivial
  · intros; exact trivial
  · intro p hp; cases hp
  · intro k v t hv ht p hp
    rcases List.mem_cons.mp hp with rfl | hp'
    · exact hv
    · exact ht p hp'

/-- Reordering by `sort_nested_dict` does not change the logical content:
the canonical forms before and after agree (for dictionary-valued data with
duplicate-free keys, as Python dictionaries always are). -/
theorem deepSort_sortNestedDict : ∀ x, nodupKeysJ x = true →
    deepSort (sortNestedDict x) = deepSort x := by
  refine J.customInduction (fun x => nodupKeysJ x = true →
      deepSort (sortNestedDict x) = deepSort x)
    (fun _ => True)
    (fun l => nodupKeysEntries l = true → deepEntries (sortEntries l) = deepEntries l)
    ?_ ?_ ?_ ?_ ?_ ?_ ?_ ?_ ?_
  · intro x _; simp [sortNestedDict]
  · intro x _; simp [sortNestedDict]
  · intro x _; simp [sortNestedDict]
  · intro xs _ _; simp [sortNestedDict]
  · intro l ih h
    simp only [nodupKeysJ, Bool.and_eq_true, decide_eq_true_eq] at h
    simp only [sortNestedDict, deepSort]
    congr 1
    have hperm : (deepEntries (sortPairs (sortEntries l))).Perm (deepEntries l) := by
      rw [deepEntries_eq_map, deepEntries_eq_map]
      exact ((List.perm_insertionSort keyLE (sortEntries l)).map _).trans
        (by rw [← deepEntries_eq_map, ← deepEntries_eq_map, ih h.2])
    have hnd : ((deepEntries (sortPairs (sortEntries l))).map Prod.fst).Nodup := by
      rw [map_fst_deepEntries]
      have : ((sortPairs (sortEntries l)).map Prod.fst).Perm (l.map Prod.fst) := by
        have := (List.perm_insertionSort keyLE (sortEntries l)).map Prod.fst
        rw [map_fst_sortEntries] at this
        exact this
      exact this.nodup_iff.mpr h.1
    exact sortPairsCongrPerm hperm hnd
  · exact trivial
  · intros; exact trivial
  · intro _; rfl
  · intro k v t hv ht h
    simp only [nodupKeysEntries, Bool.and_eq_true] at h
    simp [sortEntries, deepEntries, hv h.1, ht h.2]

/-- The output of `sort_nested_dict` has ascending keys at every
dictionary level it reaches (every level not nested inside an array). -/
theorem keysSortedJ_sortNestedDict : ∀ x, keysSortedJ (sortNestedDict x) = true := by
  refine J.customInduction (fun x => keysSortedJ (sortNestedDict x) = true)
    (fun _ => True)
    (fun l => ∀ p ∈ l, keysSortedJ (sortNestedDict p.2) = true)
    ?_ ?_ ?_ ?_ ?_ ?_ ?_ ?_ ?_
  · intro x; simp [sortNestedDict, keysSortedJ]
  · intro x; simp [sortNestedDict, keysSortedJ]
  · intro x; simp [sortNestedDict, keysSortedJ]
  · intro xs _; simp [sortNestedDict, keysSortedJ]
  · intro l ih
    simp only [sortNestedDict, keysSortedJ, Bool.and_eq_true, decide_eq_true_eq]
    constructor
    · have hs : List.Sorted keyLE (sortPairs (sortEntries l)) :=
        List.sorted_insertionSort keyLE (sortEntries l)
      exact List.Pairwise.map Prod.fst (fun _ _ h => h) hs
    · apply keysSortedEntries_of
      intro p hp
      have hp2 : p ∈ sortEntries l := (List.mem_insertionSort keyLE).mp hp
      rw [sortEntries_eq_map] at hp2
      rcases List.mem_map.mp hp2 with ⟨q, hq, rfl⟩
      exact ih q hq
  · exact trivial
  · intros; exact trivial
  · intro p hp; cases hp
  · intro k v t hv ht p hp
    rcases List.mem_cons.mp hp with rfl | hp'
    · exact hv
    · exact ht p hp'

/-- Seconds in a day; `_in(days)` (manual.py lines 35-39) adds whole days
to the current UTC time, truncated to seconds. Times are modelled as
seconds since an arbitrary epoch. -/
def inDays (now : Nat) (days : Nat) : Nat := now + days * 86400

/-- Expiry stamped on Root, created with `_in(365)` (line 65). -/
def rootExpiresAt (t : Nat) : Nat := inDays t 365

/-- Expiry stamped on the delegated role, created with `_in(1)` (line 136). -/
def delegateeExpiresAt (t : Nat) : Nat := inDays t 1

/-- Expiry stamped on Targets, created with `_in(1)` (line 164). -/
def targetsExpiresAt (t : Nat) : Nat := inDays t 1

/-- Expiry stamped on Snapshot, created with `_in(1)` (line 244). -/
def snapshotExpiresAt (t : Nat) : Nat := inDays t 1

/-- Expiry stamped on Timestamp, created with `_in(1)` (line 275). -/
def timestampExpiresAt (t : Nat) : Nat := inDays t 1

/-- Key ids and signing threshold recorded for one role-kind in Root. -/
structure RoleKeys where
  keyids : List String
  threshold : Nat

/-- The four top-level roles of the Root payload after the `add_key` calls
of lines 71-76: timestamp and snapshot hold the online key, root and
targets the offline key.  The library's Root constructor initialises every
role with an empty key list and threshold 1; `add_key` appends the key id. -/
def rootRoles (onlineKeyId offlineKeyId : String) : List (String × RoleKeys) :=
  [("root", ⟨[offlineKeyId], 1⟩),
   ("timestamp", ⟨[onlineKeyId], 1⟩),
   ("snapshot", ⟨[onlineKeyId], 1⟩),
   ("targets", ⟨[offlineKeyId], 1⟩)]

/-- The key table of the Root payload: `add_key` registers the public key
under its id (online first, lines 71-72, then offline, lines 75-76). -/
def rootKeyTable (onlineKeyId offlineKeyId onlinePub offlinePub : String) :
    List (String × String) :=
  [(onlineKeyId, onlinePub), (offlineKeyId, offlinePub)]

/-- Line 84: `roles["root"].signed.consistent_snapshot = False`. -/
def rootConsistentSnapshot : Bool := false

/-- Line 88: the root metadata is written under this name (the code comment
on line 87 shows the version-prefixed pattern `{version}.{type}.json`). -/
def unversionedRootFilename : String := "1.root.json"

/-- Line 142: filename of the delegated role's metadata. -/
def unversionedDelegateeFilename : String := "packages-and-in-toto-metadata-signer.json"

/-- Line 216: filename of the top-level targets metadata. -/
def unversionedTargetFilename : String := "targets.json"

/-- Line 247: filename of the snapshot metadata. -/
def unversionedSnapshotFilename : String := "snapshot.json"

/-- Line 278: filename of the timestamp metadata. -/
def unversionedTimestampFilename : String := "timestamp.json"

/-- All metadata filenames the script writes, in the order written. -/
def writtenMetadataFilenames : List String :=
  [unversionedRootFilename, unversionedDelegateeFilename, unversionedTargetFilename,
   unversionedSnapshotFilename, unversionedTimestampFilename]

/-- A filename of the version-prefixed form `{version}.{rest}`: a non-empty
run of digits before the first dot (lines 80, 87 and 98 of the source show
this pattern for consistent-snapshot filenames). -/
def isVersionPrefixed (f : String) : Bool :=
  let pre := f.toList.takeWhile (fun c => c ≠ '.')
  decide (pre ≠ []) && pre.all Char.isDigit && decide ('.' ∈ f.toList)

/-- Line 131. -/
def delegateeName : String := "packages-and-in-toto-metadata-signer"

/-- Directory component of the in-toto link files under TARGETS_DIR. -/
def linkDir : String :=
  "in-toto-metadata/b4df3c864becf593a939414e5cfb85a7d9406b5f8bb645d248a35163c9afd3f9"

/-- On-disk path of a link file matched by the glob of line 110
(`TARGETS_DIR` ends in a slash, hence the double slash in the pattern);
`stem` is the part matched by `*`, which never contains a slash. -/
def diskFilename (stem : String) : String :=
  "targets-ite2//" ++ linkDir ++ "/" ++ stem ++ ".link"

/-- Logical metadata path computed on line 112 by dropping the first path
component of the on-disk name and stripping leading slashes. -/
def metadataFilename (stem : String) : String :=
  linkDir ++ "/" ++ stem ++ ".link"

/-- Length and digest data of a target descriptor. -/
structure TargetFileInfo where
  length : Nat
  sha256 : String

/-- Modelled from the spec: `TargetFile.from_file(metadata_filename,
disk_filename)` builds a content-addressed TargetDescriptor whose length
and digests are computed over the content of the file at the given local
disk path (second argument).  The file system is a map from paths to byte
lists and the hash function is abstract. -/
def targetFileFromFile (hash : List Nat → String) (fs : String → List Nat)
    (localPath : String) : TargetFileInfo :=
  ⟨(fs localPath).length, hash (fs localPath)⟩

/-- Value of the loop variable `disk_filename` after the glob loop of
lines 110-117: the disk path of the last matched link file.  The script
presupposes a non-empty match (otherwise line 122 raises `NameError`), so
all results below are stated for runs with at least one matched stem and
the default is never reached. -/
def lastLinkDisk (stems : List String) : String :=
  diskFilename (stems.getLastD "")

/-- Line 120. -/
def packageLogicalPath : String := "packages/demo-project.tar.gz"

/-- Line 121: `os.path.join(TARGETS_DIR, metadata_filename)`. -/
def packageDiskPath : String := "targets-ite2/packages/demo-project.tar.gz"

/-- Line 122: the package descriptor is built with
`TargetFile.from_file(metadata_filename, disk_filename)` — the second
argument is the leftover loop variable, not `package_filename`. -/
def packageFileinfo (hash : List Nat → String) (fs : String → List Nat)
    (stems : List String) : TargetFileInfo :=
  targetFileFromFile hash fs (lastLinkDisk stems)

/-- Line 107: initial value of `package_custom_in_toto`. -/
def packageCustomStart : List String := ["in-toto-metadata/root.layout"]

/-- State of `package_custom_in_toto` after the loop of lines 110-117: one
appended logical link path per matched stem.  The bare expression
`package_custom_in_toto.append` on line 124 evaluates the bound method
without calling it, so the package's own path is never appended. -/
def customAfterLoop (stems : List String) : List String :=
  stems.foldl (fun acc st => acc ++ [metadataFilename st]) packageCustomStart

/-- Line 127: `sorted(package_custom_in_toto)`. -/
def packageCustomInToto (stems : List String) : List String :=
  List.insertionSort (fun a b : String => a ≤ b) (customAfterLoop stems)

/-- JSON form of a plain target descriptor (length and hashes). -/
def targetFileToJ (tf : TargetFileInfo) : J :=
  .obj [("hashes", .obj [("sha256", .s tf.sha256)]), ("length", .n tf.length)]

/-- JSON form of the package descriptor including the custom in-toto list
attached on lines 125-129. -/
def packageTargetJ (hash : List Nat → String) (fs : String → List Nat)
    (stems : List String) : J :=
  .obj [("hashes", .obj [("sha256", .s (packageFileinfo hash fs stems).sha256)]),
        ("length", .n (packageFileinfo hash fs stems).length),
        ("custom", .obj [("in-toto", .arr ((packageCustomInToto stems).map J.s))])]

/-- Targets table of the delegated role: one entry per matched link file
(lines 114-115), then the package entry (line 123). -/
def delegateeTargetsTable (hash : List Nat → String) (fs : String → List Nat)
    (stems : List String) : List (String × J) :=
  stems.map (fun st => (metadataFilename st,
    targetFileToJ (targetFileFromFile hash fs (diskFilename st)))) ++
  [(packageLogicalPath, packageTargetJ hash fs stems)]

/-- Signed portion of the delegated role's metadata (lines 132-140). -/
def delegateeSigned (specVer expIso : String) (hash : List Nat → String)
    (fs : String → List Nat) (stems : List String) : J :=
  .obj [("_type", .s "targets"), ("spec_version", .s specVer), ("version", .n 1),
        ("expires", .s expIso), ("targets", .obj (delegateeTargetsTable hash fs stems))]

/-- Modelled from the spec: a signature produced by `sign` is bound to the
canonical bytes of the payload at signing time.  We record the key id and
the payload that was signed; because the canonical serialisation is
injective over logical content, the signature verifies over a payload
exactly when that payload's canonical form equals the canonical form of
the payload signed. -/
structure Sig where
  keyid : String
  signedOver : J

/-- Produce a signature with key `k` over payload `p` (`Metadata.sign`). -/
def signPayload (k : String) (p : J) : Sig := ⟨k, p⟩

/-- Modelled from the spec: `verify(key, canonicalBytes, signature)` —
valid exactly when the canonical form of the payload offered for
verification coincides with the canonical form of the payload signed. -/
def validSig (sg : Sig) (p : J) : Prop := deepSort sg.signedOver = deepSort p

/-- A metadata file as written: a payload and its signature list. -/
structure Envelope where
  signed : J
  sigs : List Sig

/-- Fully signed (spec, "SignedEnvelope"): at least `t` distinct key ids
from the authorised set `auth` have valid signatures over the payload. -/
def FullySigned (auth : List String) (t : Nat) (e : Envelope) : Prop :=
  ∃ ks : List String, ks.Nodup ∧ t ≤ ks.length ∧
    ∀ k ∈ ks, k ∈ auth ∧ ∃ sg ∈ e.sigs, sg.keyid = k ∧ validSig sg e.signed

/-- The delegated role's metadata as written on line 149: the payload of
lines 132-140, signed on line 148 with the online key. -/
def delegateeEnvelope (onlineKeyId specVer expIso : String)
    (hash : List Nat → String) (fs : String → List Nat) (stems : List String) : Envelope :=
  ⟨delegateeSigned specVer expIso hash fs stems,
   [signPayload onlineKeyId (delegateeSigned specVer expIso hash fs stems)]⟩

/-- Signed portion of the targets skeleton of lines 161-167 (written to
targets.json on line 218 and signed, via the file, on line 223). -/
def targetsSkeletonSigned (specVer expIso : String) : J :=
  .obj [("_type", .s "targets"), ("spec_version", .s specVer), ("version", .n 1),
        ("expires", .s expIso), ("targets", .obj [])]

/-- Delegations block inserted into `targets_dict` on lines 174-191. -/
def delegationsJ (offlineKeyId offlinePub : String) : J :=
  .obj [("keys", .obj [(offlineKeyId,
          .obj [("keytype", .s "ecdsa"),
                ("keyval", .obj [("public", .s offlinePub)]),
                ("scheme", .s "ecdsa-sha2-nistp256")])]),
        ("roles", .arr [
          .obj [("keyids", .arr [.s offlineKeyId]),
                ("name", .s delegateeName),
                ("paths", .arr [.s "in-toto-metadata/*/*.link", .s "packages/*"]),
                ("terminating", .b true),
                ("threshold", .n 1)]])]

/-- Targets table assigned to `targets_dict["signed"]["targets"]` on
lines 195-213 (two fixed entries with hard-coded digests). -/
def staticTargetsJ : J :=
  .obj [("in-toto-metadata/root.layout",
          .obj [("custom", .obj [("in-toto", .arr [.s "in-toto-pubkeys/alice.pub"])]),
                ("hashes", .obj [("sha256",
                  .s "fd638c9e085b8aea9394beaa960bb27e10a6cd2d2303bd690369bf90fd8ac0de")]),
                ("length", .n 5340)]),
        ("in-toto-pubkeys/alice.pub",
          .obj [("hashes", .obj [("sha256",
                  .s "06b6b81c16fce5a9a67494a01ab5a47fba9ce37f7432c88759f4ea98ea44328e")]),
                ("length", .n 625)])]

/-- Signed portion of targets.json after the in-place dictionary surgery:
the skeleton of lines 161-167 with the delegations key appended
(line 174) and the targets table replaced (line 195). -/
def targetsFinalSigned (specVer expIso offlineKeyId offlinePub : String) : J :=
  .obj [("_type", .s "targets"), ("spec_version", .s specVer), ("version", .n 1),
        ("expires", .s expIso), ("targets", staticTargetsJ),
        ("delegations", delegationsJ offlineKeyId offlinePub)]

/-- targets.json as finally written on lines 226-241: the payload is the
mutated `targets_dict["signed"]` (passed through `sort_nested_dict`), but
the signature list is the one produced on line 223 over the skeleton
payload that was on disk at signing time. -/
def writtenTargetsEnvelope (specVer expIso offlineKeyId offlinePub : String) : Envelope :=
  ⟨sortNestedDict (targetsFinalSigned specVer expIso offlineKeyId offlinePub),
   [signPayload offlineKeyId (targetsSkeletonSigned specVer expIso)]⟩

/-- Modelled from the spec: default Snapshot payload created on line 244.
The library's Snapshot constructor initialises the meta table with a
single entry `targets.json` at version 1. -/
def snapshotDefaultSigned (specVer expIso : String) : J :=
  .obj [("_type", .s "snapshot"), ("spec_version", .s specVer), ("version", .n 1),
        ("expires", .s expIso),
        ("meta", .obj [("targets.json", .obj [("version", .n 1)])])]

/-- Signed portion of snapshot.json after line 258 replaced the meta table
with one entry per targets-family metadata file, both at version 1. -/
def snapshotFinalSigned (specVer expIso : String) : J :=
  .obj [("_type", .s "snapshot"), ("spec_version", .s specVer), ("version", .n 1),
        ("expires", .s expIso),
        ("meta", .obj [("packages-and-in-toto-metadata-signer.json",
                         .obj [("version", .n 1)]),
                       ("targets.json", .obj [("version", .n 1)])])]

/-- snapshot.json as finally written on lines 268-272: the mutated payload
(passed through `sort_nested_dict`) next to the signature produced on
line 252 over the default payload that was on disk at signing time. -/
def writtenSnapshotEnvelope (onlineKeyId specVer expIso : String) : Envelope :=
  ⟨sortNestedDict (snapshotFinalSigned specVer expIso),
   [signPayload onlineKeyId (snapshotDefaultSigned specVer expIso)]⟩

/-- Modelled from the spec: Timestamp payload created on line 275.  The
library's Timestamp constructor initialises the meta table with the single
entry `snapshot.json` at version 1. -/
def timestampSigned (specVer expIso : String) : J :=
  .obj [("_type", .s "timestamp"), ("spec_version", .s specVer), ("version", .n 1),
        ("expires", .s expIso),
        ("meta", .obj [("snapshot.json", .obj [("version", .n 1)])])]

/-- timestamp.json as written on line 284: payload unchanged since signing
(line 283, online key). -/
def writtenTimestampEnvelope (onlineKeyId specVer expIso : String) : Envelope :=
  ⟨timestampSigned specVer expIso,
   [signPayload onlineKeyId (timestampSigned specVer expIso)]⟩

/-- Unfolded form of `sortNestedDict` on objects. -/
theorem sortNestedDict_obj (l : List (String × J)) :
    sortNestedDict (.obj l) = .obj (sortPairs (sortEntries l)) := by
  simp [sortNestedDict]

/-- Unfolded form of `deepSort` on objects. -/
theorem deepSort_obj (l : List (String × J)) :
    deepSort (.obj l) = .obj (sortPairs (deepEntries l)) := by
  simp [deepSort]

/-- Entry count of `sortPairs`. -/
theorem length_sortPairs (l : List (String × J)) : (sortPairs l).length = l.length :=
  List.length_insertionSort keyLE l

/-- Entry count of `sortEntries`. -/
theorem length_sortEntries (l : List (String × J)) : (sortEntries l).length = l.length := by
  rw [sortEntries_eq_map, List.length_map]

/-- Entry count of `deepEntries`. -/
theorem length_deepEntries (l : List (String × J)) : (deepEntries l).length = l.length := by
  rw [deepEntries_eq_map, List.length_map]

/-- Lookup commutes with mapping over the values of an entry list. -/
theorem lookupJ_map_value (f : J → J) (k : String) : ∀ l : List (String × J),
    lookupJ k (l.map (fun p => (p.1, f p.2))) = (lookupJ k l).map f := by
  intro l
  induction l with
  | nil => rfl
  | cons p t ih =>
    cases p with
    | mk k' v =>
      by_cases hk : k' = k
      · subst hk; simp [lookupJ]
      · simp [lookupJ, hk, ih]

/-- Lookup is stable under reordering of an entry list with duplicate-free
keys (in particular under key sorting). -/
theorem lookupJ_eq_of_perm {l l' : List (String × J)} (h : l.Perm l')
    (hnd : (l.map Prod.fst).Nodup) (k : String) : lookupJ k l = lookupJ k l' := by
  induction h with
  | nil => rfl
  | cons x h ih =>
    cases x with
    | mk k' v =>
      by_cases hk : k' = k
      · subst hk; simp [lookupJ]
      · simp only [lookupJ, if_neg hk]
        exact ih (List.nodup_cons.mp hnd).2
  | swap x y t =>
    cases x with
    | mk kx vx =>
      cases y with
      | mk ky vy =>
        have hxy : ky ≠ kx := by
          simp only [List.map, List.nodup_cons, List.mem_cons] at hnd
          exact fun hc => hnd.1 (Or.inl hc)
        by_cases h1 : kx = k
        · subst h1
          simp [lookupJ, hxy]
        · by_cases h2 : ky = k
          · subst h2; simp [lookupJ, h1]
          · simp [lookupJ, h1, h2]
  | trans h1 h2 ih1 ih2 =>
    have hnd2 := ((h1.map Prod.fst).nodup_iff).mp hnd
    exact (ih1 hnd).trans (ih2 hnd2)

/-- Keys of the sorted-and-recursed entry list, as a permutation. -/
theorem map_fst_sorted_perm (l : List (String × J)) :
    ((sortPairs (sortEntries l)).map Prod.fst).Perm (l.map Prod.fst) := by
  have := (List.perm_insertionSort keyLE (sortEntries l)).map Prod.fst
  rw [map_fst_sortEntries] at this
  exact this

/-- Reading a field of the dictionary written through `sort_nested_dict`
returns the recursively sorted original field. -/
theorem jGet_sortNestedDict_obj (l : List (String × J))
    (hnd : (l.map Prod.fst).Nodup) (k : String) :
    jGet (sortNestedDict (.obj l)) k = (lookupJ k l).map sortNestedDict := by
  rw [sortNestedDict_obj]
  show lookupJ k (sortPairs (sortEntries l)) = (lookupJ k l).map sortNestedDict
  have hnds : ((sortEntries l).map Prod.fst).Nodup := by
    rw [map_fst_sortEntries]; exact hnd
  have hndSorted : ((sortPairs (sortEntries l)).map Prod.fst).Nodup :=
    ((List.perm_insertionSort keyLE (sortEntries l)).map Prod.fst).nodup_iff.mpr hnds
  have h1 := lookupJ_eq_of_perm (List.perm_insertionSort keyLE (sortEntries l)) hndSorted k
  rw [sortPairs, h1, sortEntries_eq_map, lookupJ_map_value]

/-- Reading a field of the canonical form of an object returns the
canonical form of the original field. -/
theorem jGet_deepSort_obj (l : List (String × J))
    (hnd : (l.map Prod.fst).Nodup) (k : String) :
    jGet (deepSort (.obj l)) k = (lookupJ k l).map deepSort := by
  rw [deepSort_obj]
  show lookupJ k (sortPairs (deepEntries l)) = (lookupJ k l).map deepSort
  have hndd : ((deepEntries l).map Prod.fst).Nodup := by
    rw [map_fst_deepEntries]; exact hnd
  have hndSorted : ((sortPairs (deepEntries l)).map Prod.fst).Nodup :=
    ((List.perm_insertionSort keyLE (deepEntries l)).map Prod.fst).nodup_iff.mpr hndd
  have h1 := lookupJ_eq_of_perm (List.perm_insertionSort keyLE (deepEntries l)) hndSorted k
  rw [sortPairs, h1, deepEntries_eq_map, lookupJ_map_value]

/-- C4, counterexample: the claim says no version-prefixed filename is
produced for any role, yet the root metadata is written (only) under
"1.root.json", which is exactly the version-prefixed pattern
`{version}.{type}.json` shown in the source's own comment (line 87),
even though consistent snapshots are disabled. -/
theorem claim_c4_counterexample :
    rootConsistentSnapshot = false ∧
    unversionedRootFilename ∈ writtenMetadataFilenames ∧
    isVersionPrefixed unversionedRootFilename = true := by
  refine ⟨rfl, ?_, ?_⟩
  · decide
  · decide

/-- C4, amended: with consistent snapshots disabled every metadata file
except root's is written under an unversioned filename; root alone is
written under the version-prefixed name "1.root.json". -/
theorem claim_c4_unversioned_except_root :
    rootConsistentSnapshot = false ∧
    isVersionPrefixed unversionedRootFilename = true ∧
    (writtenMetadataFilenames.filter
      (fun f => f != unversionedRootFilename)).all
      (fun f => !isVersionPrefixed f) = true := by
  refine ⟨rfl, by decide, by decide⟩

/-- C5: the written timestamp payload's meta table holds a single entry,
for "snapshot.json", and the version it records equals the version field
of the written snapshot payload (both are 1). -/
theorem claim_c5_timestamp_pins_written_snapshot (specVer e1 e2 : String) :
    jGet (timestampSigned specVer e1) "meta"
      = some (.obj [(unversionedSnapshotFilename, .obj [("version", .n 1)])]) ∧
    Option.bind (Option.bind (jGet (timestampSigned specVer e1) "meta")
        (fun m => jGet m "snapshot.json")) (fun m => jGet m "version")
      = jGet (snapshotFinalSigned specVer e2) "version" ∧
    jGet (snapshotFinalSigned specVer e2) "version" = some (.n 1) := by
  exact ⟨rfl, rfl, rfl⟩

/-- C7: every one of the four top-level role-kinds declared in the Root
payload has a non-empty key id list whose every member is registered in
Root's key table, and its threshold satisfies 1 ≤ threshold ≤ number of
key ids (here: exactly one key id and threshold 1 per role-kind). -/
theorem claim_c7_root_roles_wellformed (onlineKeyId offlineKeyId onlinePub offlinePub : String) :
    (rootRoles onlineKeyId offlineKeyId).map Prod.fst
      = ["root", "timestamp", "snapshot", "targets"] ∧
    (rootRoles onlineKeyId offlineKeyId).all (fun r =>
      decide (r.2.keyids ≠ []) && decide (1 ≤ r.2.threshold) &&
      decide (r.2.threshold ≤ r.2.keyids.length) &&
      r.2.keyids.all (fun k =>
        (rootKeyTable onlineKeyId offlineKeyId onlinePub offlinePub).any
          (fun q => q.1 == k))) = true := by
  constructor
  · rfl
  · simp [rootRoles, rootKeyTable]

/-- C8, counterexample: the roles are stamped in source order and the
clock may advance between stampings; if snapshot is stamped at second 0
and timestamp one second later, the timestamp role's expiry is strictly
later than the snapshot role's, so timestamp does not have the earliest
expiry timestamp. -/
theorem claim_c8_counterexample : snapshotExpiresAt 0 < timestampExpiresAt 1 := by
  decide

/-- C8, amended: timestamp's expiry interval (1 day) is the shortest used
by the script — equal to those of the delegated role, targets and
snapshot, and far below root's 365 days — so whenever the five roles are
stamped within the same clock second, timestamp's expiry timestamp is no
later than every other role's. -/
theorem claim_c8_timestamp_shortest_interval (t : Nat) :
    timestampExpiresAt t ≤ rootExpiresAt t ∧
    timestampExpiresAt t = targetsExpiresAt t ∧
    timestampExpiresAt t = delegateeExpiresAt t ∧
    timestampExpiresAt t = snapshotExpiresAt t := by
  refine ⟨?_, rfl, rfl, rfl⟩
  simp only [timestampExpiresAt, rootExpiresAt, inDays]
  omega

/-- Folding appends over a list produces the seed followed by the images. -/
theorem foldl_append_eq (f : String → String) :
    ∀ (l : List String) (acc : List String),
      l.foldl (fun a st => a ++ [f st]) acc = acc ++ l.map f := by
  intro l
  induction l with
  | nil => intro acc; simp
  | cons x t ih => intro acc; simp [ih]

/-- The custom in-toto list after the loop: the fixed layout path followed
by the logical path of each matched link file, in glob order. -/
theorem customAfterLoop_eq (stems : List String) :
    customAfterLoop stems = "in-toto-metadata/root.layout" :: stems.map metadataFilename := by
  rw [customAfterLoop, foldl_append_eq]
  rfl

/-- Logical link paths start with the in-toto metadata directory. -/
theorem metadataFilename_head (st : String) :
    (metadataFilename st).data.head? = some 'i' := rfl

/-- A logical link path is never the package's own logical path. -/
theorem metadataFilename_ne_package (st : String) :
    metadataFilename st ≠ packageLogicalPath := by
  intro h
  have h2 := congrArg (fun s : String => s.data.head?) h
  rw [show (fun s : String => s.data.head?) (metadataFilename st)
        = some 'i' from metadataFilename_head st] at h2
  simp [packageLogicalPath] at h2

/-- C10: the custom in-toto list attached to the package descriptor is the
ascending sort of the fixed layout path together with the logical path of
every matched link file, and it never contains the package's own path
(line 124 evaluates `package_custom_in_toto.append` without calling it,
so nothing is appended for the package). -/
theorem claim_c10_package_custom_in_toto (stems : List String) :
    packageCustomInToto stems =
      List.insertionSort (fun a b : String => a ≤ b)
        ("in-toto-metadata/root.layout" :: stems.map metadataFilename) ∧
    (packageCustomInToto stems).all (fun x => x != packageLogicalPath) = true := by
  constructor
  · rw [packageCustomInToto, customAfterLoop_eq]
  · rw [List.all_eq_true]
    intro x hx
    rw [packageCustomInToto] at hx
    have hx2 : x ∈ customAfterLoop stems := (List.mem_insertionSort _).mp hx
    rw [customAfterLoop_eq] at hx2
    rw [bne_iff_ne]
    rcases List.mem_cons.mp hx2 with rfl | hx3
    · intro h
      simp [packageLogicalPath] at h
    · rcases List.mem_map.mp hx3 with ⟨st, _, rfl⟩
      exact metadataFilename_ne_package st

/-- C2: the delegation block of targets.json authorises only the offline
key id for the delegated role (threshold 1), but the delegated role's
metadata was signed with the online key (line 148), so no authorised key
has a valid signature over it and the role cannot meet its threshold. -/
theorem claim_c2_delegatee_signed_by_unauthorized_key
    (onlineKeyId offlineKeyId offlinePub specVer expIso : String)
    (hash : List Nat → String) (fs : String → List Nat) (stems : List String)
    (h : onlineKeyId ≠ offlineKeyId) :
    jGet (delegationsJ offlineKeyId offlinePub) "roles" =
      some (.arr [.obj [("keyids", .arr [.s offlineKeyId]), ("name", .s delegateeName),
        ("paths", .arr [.s "in-toto-metadata/*/*.link", .s "packages/*"]),
        ("terminating", .b true), ("threshold", .n 1)]]) ∧
    ¬ FullySigned [offlineKeyId] 1
      (delegateeEnvelope onlineKeyId specVer expIso hash fs stems) := by
  refine ⟨rfl, ?_⟩
  rintro ⟨ks, _, hlen, hall⟩
  cases ks with
  | nil => simp at hlen
  | cons k kt =>
    obtain ⟨hmem, sg, hsg, hkid, _⟩ := hall k (List.mem_cons_self k kt)
    have hk : k = offlineKeyId := by simpa using hmem
    have hsgeq : sg = signPayload onlineKeyId
        (delegateeSigned specVer expIso hash fs stems) := by
      simpa [delegateeEnvelope] using hsg
    apply h
    rw [hsgeq] at hkid
    rw [hk] at hkid
    exact hkid

/-- C2, witness at concrete distinct key ids. -/
theorem claim_c2_witness :
    ("online-keyid" : String) ≠ "offline-keyid" ∧
    ¬ FullySigned ["offline-keyid"] 1
      (delegateeEnvelope "online-keyid" "1.0.31" "2025-01-01T00:00:00Z"
        (fun _ => "h") (fun _ => []) ["demo"]) :=
  ⟨by decide,
   (claim_c2_delegatee_signed_by_unauthorized_key "online-keyid" "offline-keyid"
      "pub" "1.0.31" "2025-01-01T00:00:00Z" (fun _ => "h") (fun _ => [])
      ["demo"] (by decide)).2⟩

/-- C3: the package descriptor is content-addressed to the wrong file.
Line 122 passes `disk_filename` — the leftover loop variable naming the
last matched link file — instead of `package_filename`, so length and
digest are computed over the last link file's content; whenever that
content differs in length from the package's, the recorded length cannot
be the package content's length that the claim demands. -/
theorem claim_c3_package_descriptor_wrong_file
    (hash : List Nat → String) (fs : String → List Nat) (st0 : String) (rest : List String)
    (hdiff : (fs (lastLinkDisk (st0 :: rest))).length ≠ (fs packageDiskPath).length) :
    packageFileinfo hash fs (st0 :: rest)
        = targetFileFromFile hash fs (lastLinkDisk (st0 :: rest)) ∧
    (packageFileinfo hash fs (st0 :: rest)).length ≠ (fs packageDiskPath).length ∧
    (targetFileFromFile hash fs packageDiskPath).length = (fs packageDiskPath).length :=
  ⟨rfl, hdiff, rfl⟩

/-- C3, witness: one matched link file whose content (one byte) differs
from the package's content (two bytes). -/
theorem claim_c3_witness :
    ((fun p => if p = packageDiskPath then [0, 0] else [1]) (lastLinkDisk ["demo"])).length
        ≠ ((fun p => if p = packageDiskPath then [0, 0] else [1]) packageDiskPath).length ∧
    (packageFileinfo (fun _ => "h")
        (fun p => if p = packageDiskPath then [0, 0] else [1]) ["demo"]).length
        ≠ ((fun p => if p = packageDiskPath then [0, 0] else [1]) packageDiskPath).length :=
  ⟨by decide,
   (claim_c3_package_descriptor_wrong_file (fun _ => "h")
      (fun p => if p = packageDiskPath then [0, 0] else [1]) "demo" [] (by decide)).2.1⟩

/-- C6: the written snapshot payload's meta table holds exactly one entry
per targets-family metadata file — the delegated role's file and
targets.json — each pinned at version 1, and the written targets and
delegated-role payloads do carry version 1. -/
theorem claim_c6_snapshot_meta_exact
    (specVer e1 e2 e3 offlineKeyId offlinePub onlineKeyId : String)
    (hash : List Nat → String) (fs : String → List Nat) (stems : List String) :
    jGet (snapshotFinalSigned specVer e1) "meta"
      = some (.obj [(unversionedDelegateeFilename, .obj [("version", .n 1)]),
                    (unversionedTargetFilename, .obj [("version", .n 1)])]) ∧
    jGet (writtenTargetsEnvelope specVer e2 offlineKeyId offlinePub).signed "version"
      = some (.n 1) ∧
    jGet (delegateeEnvelope onlineKeyId specVer e3 hash fs stems).signed "version"
      = some (.n 1) := by
  refine ⟨rfl, ?_, rfl⟩
  show jGet (sortNestedDict (targetsFinalSigned specVer e2 offlineKeyId offlinePub))
      "version" = some (.n 1)
  rw [targetsFinalSigned, jGet_sortNestedDict_obj _ (by simp)]
  simp [lookupJ, sortNestedDict]

/-- Number of entries of an object (0 on non-objects). -/
def objLen (j : J) : Nat :=
  match j with
  | .obj m => m.length
  | _ => 0

/-- Canonicalisation preserves the entry count of an object. -/
theorem objLen_deepSort_obj (l : List (String × J)) :
    objLen (deepSort (.obj l)) = l.length := by
  rw [deepSort_obj]
  show (sortPairs (deepEntries l)).length = l.length
  rw [length_sortPairs, length_deepEntries]

/-- Canonicalising the `sort_nested_dict` image also preserves the entry
count of an object. -/
theorem objLen_deepSort_sortNestedDict_obj (l : List (String × J)) :
    objLen (deepSort (sortNestedDict (.obj l))) = l.length := by
  rw [sortNestedDict_obj, objLen_deepSort_obj]
  show (sortPairs (sortEntries l)).length = l.length
  rw [length_sortPairs, length_sortEntries]

/-- Reading a field of the canonical form of the `sort_nested_dict` image
of an object with duplicate-free keys. -/
theorem jGet_deepSort_sortNestedDict_obj (l : List (String × J))
    (hnd : (l.map Prod.fst).Nodup) (k : String) :
    jGet (deepSort (sortNestedDict (.obj l))) k
      = (lookupJ k l).map (fun v => deepSort (sortNestedDict v)) := by
  rw [sortNestedDict_obj]
  have hndSorted : ((sortPairs (sortEntries l)).map Prod.fst).Nodup :=
    (map_fst_sorted_perm l).nodup_iff.mpr hnd
  rw [jGet_deepSort_obj _ hndSorted k]
  have h1 : lookupJ k (sortPairs (sortEntries l)) = lookupJ k (sortEntries l) :=
    lookupJ_eq_of_perm (List.perm_insertionSort keyLE (sortEntries l)) hndSorted k
  rw [h1, sortEntries_eq_map, lookupJ_map_value, Option.map_map]
  rfl

/-- Helper for C1: the canonical form of the targets skeleton differs
from the canonical form of the mutated targets payload that was written
(5 top-level fields against 6). -/
theorem skeleton_not_valid_over_final (specVer e1 offlineKeyId offlinePub : String) :
    ¬ validSig (signPayload offlineKeyId (targetsSkeletonSigned specVer e1))
      (sortNestedDict (targetsFinalSigned specVer e1 offlineKeyId offlinePub)) := by
  intro hv
  have hv2 : deepSort (targetsSkeletonSigned specVer e1)
      = deepSort (sortNestedDict (targetsFinalSigned specVer e1 offlineKeyId offlinePub)) := hv
  have hlen := congrArg objLen hv2
  rw [targetsSkeletonSigned, targetsFinalSigned, objLen_deepSort_obj,
    objLen_deepSort_sortNestedDict_obj] at hlen
  simp at hlen

/-- Helper for C1: the canonical form of the default snapshot payload
differs from the canonical form of the mutated snapshot payload that was
written (their meta tables have 1 and 2 entries, respectively). -/
theorem snapshotDefault_not_valid_over_final (onlineKeyId specVer e2 : String) :
    ¬ validSig (signPayload onlineKeyId (snapshotDefaultSigned specVer e2))
      (sortNestedDict (snapshotFinalSigned specVer e2)) := by
  intro hv
  have hv2 : deepSort (snapshotDefaultSigned specVer e2)
      = deepSort (sortNestedDict (snapshotFinalSigned specVer e2)) := hv
  have hm := congrArg (fun j => jGet j "meta") hv2
  simp only [] at hm
  rw [snapshotDefaultSigned, jGet_deepSort_obj _ (by simp)] at hm
  rw [snapshotFinalSigned, jGet_deepSort_sortNestedDict_obj _ (by simp)] at hm
  simp only [lookupJ] at hm
  simp at hm
  have hlen := congrArg objLen hm
  rw [objLen_deepSort_obj, objLen_deepSort_sortNestedDict_obj] at hlen
  simp at hlen

/-- C1: among the five written envelopes, the delegated role's and the
timestamp's signatures are valid over the payloads written next to them,
but targets.json and snapshot.json each record a signature produced over
the pre-mutation payload (the skeleton of lines 161-167, resp. the
default snapshot of line 244), and that signature is not valid over the
mutated payload that appears in the same file: the canonical form signed
differs from the canonical form of the written payload. -/
theorem claim_c1_mutated_payloads_unsigned
    (onlineKeyId offlineKeyId offlinePub specVer e1 e2 e3 e4 : String)
    (hash : List Nat → String) (fs : String → List Nat) (stems : List String) :
    ((writtenTargetsEnvelope specVer e1 offlineKeyId offlinePub).sigs
        = [signPayload offlineKeyId (targetsSkeletonSigned specVer e1)] ∧
      ¬ validSig (signPayload offlineKeyId (targetsSkeletonSigned specVer e1))
        (writtenTargetsEnvelope specVer e1 offlineKeyId offlinePub).signed) ∧
    ((writtenSnapshotEnvelope onlineKeyId specVer e2).sigs
        = [signPayload onlineKeyId (snapshotDefaultSigned specVer e2)] ∧
      ¬ validSig (signPayload onlineKeyId (snapshotDefaultSigned specVer e2))
        (writtenSnapshotEnvelope onlineKeyId specVer e2).signed) ∧
    (∀ sg ∈ (delegateeEnvelope onlineKeyId specVer e3 hash fs stems).sigs,
      validSig sg (delegateeEnvelope onlineKeyId specVer e3 hash fs stems).signed) ∧
    (∀ sg ∈ (writtenTimestampEnvelope onlineKeyId specVer e4).sigs,
      validSig sg (writtenTimestampEnvelope onlineKeyId specVer e4).signed) := by
  refine ⟨⟨rfl, ?_⟩, ⟨rfl, ?_⟩, ?_, ?_⟩
  · exact skeleton_not_valid_over_final specVer e1 offlineKeyId offlinePub
  · exact snapshotDefault_not_valid_over_final onlineKeyId specVer e2
  · intro sg hsg
    have hs : sg = signPayload onlineKeyId (delegateeSigned specVer e3 hash fs stems) := by
      simpa [delegateeEnvelope] using hsg
    rw [hs]
    rfl
  · intro sg hsg
    have hs : sg = signPayload onlineKeyId (timestampSigned specVer e4) := by
      simpa [writtenTimestampEnvelope] using hsg
    rw [hs]
    rfl

/-- C9, counterexample: `sort_nested_dict` is not a canonicaliser on
values whose lists contain dictionaries (the script's own `targets_dict`
nests a dictionary inside the delegations roles list).  The two values
below are equal as mappings — their canonical forms coincide — yet
`sort_nested_dict` returns different results, because it does not recurse
into lists, and the inner dictionary also shows that keys are not ordered
at levels below a list. -/
theorem claim_c9_counterexample :
    deepSort (J.obj [("r", .arr [.obj [("b", .n 1), ("a", .n 2)]])])
      = deepSort (J.obj [("r", .arr [.obj [("a", .n 2), ("b", .n 1)]])]) ∧
    sortNestedDict (J.obj [("r", .arr [.obj [("b", .n 1), ("a", .n 2)]])])
      ≠ sortNestedDict (J.obj [("r", .arr [.obj [("a", .n 2), ("b", .n 1)]])]) := by
  constructor
  · simp [deepSort, deepEntries, deepList, sortPairs, List.insertionSort,
      List.orderedInsert, keyLE]
    rw [if_neg (by decide), if_pos (by decide)]
  · simp [sortNestedDict, sortEntries, sortPairs, List.insertionSort,
      List.orderedInsert, keyLE]

/-- C9, amended: `sort_nested_dict` is a canonicaliser over nested
dictionaries whose lists hide no dictionaries: on such values, any two
that are equal as mappings (equal canonical forms) yield identical
results.  On every value it preserves the key-value content at every
nesting level (equal canonical form before and after, given the
duplicate-free keys Python dictionaries guarantee), orders keys ascending
at every dictionary level not nested inside a list, and is idempotent. -/
theorem claim_c9_sort_nested_dict_canonicalizer :
    (∀ a b : J, arrOk a = true → arrOk b = true →
      deepSort a = deepSort b → sortNestedDict a = sortNestedDict b) ∧
    (∀ d : J, nodupKeysJ d = true → deepSort (sortNestedDict d) = deepSort d) ∧
    (∀ d : J, keysSortedJ (sortNestedDict d) = true) ∧
    (∀ d : J, sortNestedDict (sortNestedDict d) = sortNestedDict d) := by
  refine ⟨?_, deepSort_sortNestedDict, keysSortedJ_sortNestedDict, sortNestedDict_idem⟩
  intro a b ha hb hd
  rw [arrOk_sort_eq_deep a ha, arrOk_sort_eq_deep b hb, hd]

/-- C9, witness: the canonicaliser part applied to two concrete
dictionaries that differ only in entry order. -/
theorem claim_c9_witness :
    arrOk (J.obj [("b", .n 1), ("a", .n 2)]) = true ∧
    arrOk (J.obj [("a", .n 2), ("b", .n 1)]) = true ∧
    deepSort (J.obj [("b", .n 1), ("a", .n 2)])
      = deepSort (J.obj [("a", .n 2), ("b", .n 1)]) ∧
    nodupKeysJ (J.obj [("b", .n 1), ("a", .n 2)]) = true ∧
    sortNestedDict (J.obj [("b", .n 1), ("a", .n 2)])
      = sortNestedDict (J.obj [("a", .n 2), ("b", .n 1)]) ∧
    deepSort (sortNestedDict (J.obj [("b", .n 1), ("a", .n 2)]))
      = deepSort (J.obj [("b", .n 1), ("a", .n 2)]) := by
  have h1 : arrOk (J.obj [("b", .n 1), ("a", .n 2)]) = true := by
    simp [arrOk, arrOkEntries]
  have h2 : arrOk (J.obj [("a", .n 2), ("b", .n 1)]) = true := by
    simp [arrOk, arrOkEntries]
  have h3 : deepSort (J.obj [("b", .n 1), ("a", .n 2)])
      = deepSort (J.obj [("a", .n 2), ("b", .n 1)]) := by
    simp [deepSort, deepEntries, deepList, sortPairs, List.insertionSort,
      List.orderedInsert, keyLE]
    rw [if_neg (by decide), if_pos (by decide)]
  have h4 : nodupKeysJ (J.obj [("b", .n 1), ("a", .n 2)]) = true := by
    simp [nodupKeysJ, nodupKeysEntries]
  exact ⟨h1, h2, h3, h4,
    claim_c9_sort_nested_dict_canonicalizer.1 _ _ h1 h2 h3,
    claim_c9_sort_nested_dict_canonicalizer.2.1 _ h4⟩
